import Mathlib

/-!
# Mandelbrot rasterizer and palette mapper of `example/main.c`

A shallow embedding of the rendering core of `writePng` and of `hsv_to_rgb`.

* `double` values are read as exact rationals (`ℚ`).
* `int` values are integers; the `int` subtractions and the `int` addition of
  `hsv_to_rgb` go through `wrap32` (two-complement 32-bit wrap-around), which is
  the identity on every value an `int` can hold.
* `uint8_t` values are naturals below 256; a conversion to `uint8_t` is a
  reduction modulo 256.
* A division by zero makes `hsv_to_rgb` return `none`.
-/

namespace MinizExample

/-! ## Machine arithmetic -/

/-- Two-complement wrap-around of an integer to the range of a 32-bit `int`. -/
def wrap32 (x : Int) : Int := (x + 2147483648) % 4294967296 - 2147483648

/-- Conversion `(uint8_t)x` of an integer value. -/
def u8 (x : Int) : Nat := (x % 256).toNat

/-- Conversion `(int)x` of a `double`: truncation toward zero. -/
def toInt (x : ℚ) : Int := if 0 ≤ x then ⌊x⌋ else ⌈x⌉

/-- Conversion of a `double` to `uint8_t`: truncation toward zero, then 8 bits. -/
def toU8 (x : ℚ) : Nat := u8 (toInt x)

/-- C library `fmod`: `x - y * trunc (x / y)`, the remainder with the sign of `x`. -/
def fmod (x y : ℚ) : ℚ := x - y * (toInt (x / y) : ℚ)

/-- C library `fabs`. -/
def fabs (x : ℚ) : ℚ := |x|

/-! ## Global constants (lines 24-26) -/

def iXmax : Int := 800

def iYmax : Int := 800

/-- The `uint32_t` constant `rawImg = iXmax * iYmax * 3`. -/
def rawImg : Nat := (iXmax * iYmax * 3 % 4294967296).toNat

/-- The struct `rgb_t` of three `uint8_t` channels. -/
structure rgb_t where
  r : Nat
  g : Nat
  b : Nat
deriving DecidableEq, Repr

/-! ## `hsv_to_rgb` (lines 34-60) -/

def invert : Int := 0

def saturation : Int := 1

def color_rotate : Int := 0

/-- Line 40: `if (min == max) max = min + 1;`, the value of `max` afterwards. -/
def guardMax (min max : Int) : Int := if min = max then wrap32 (min + 1) else max

/-- The `int` divisor `max - min` of lines 43 and 46 (`max` already guarded). -/
def divisor (min max : Int) : Int := wrap32 (max - min)

/-- Line 46: `h = fmod(color_rotate + 1e-4 + 4.0 * (hue - min) / (max - min), 6)`
(`max` already guarded). -/
def hsv_h (hue min max : Int) : ℚ :=
  fmod ((color_rotate : ℚ) + 1 / 10000 + 4 * (wrap32 (hue - min) : ℚ) / (divisor min max : ℚ)) 6

/-- Line 47: `c = 255.0f * saturation`. -/
def hsv_c : ℚ := 255 * (saturation : ℚ)

/-- Line 48: `X = c * (1 - fabs(fmod(h, 2) - 1))`. -/
def hsv_X (h : ℚ) : ℚ := hsv_c * (1 - fabs (fmod h 2 - 1))

/-- Lines 50-59: all channels are zeroed, then the `switch ((int)h)` sets two of them. -/
def hsv_switch (h : ℚ) : rgb_t :=
  let c := hsv_c
  let X := hsv_X h
  let k := toInt h
  if k = 0 then { r := toU8 c, g := toU8 X, b := 0 }
  else if k = 1 then { r := toU8 X, g := toU8 c, b := 0 }
  else if k = 2 then { r := 0, g := toU8 c, b := toU8 X }
  else if k = 3 then { r := 0, g := toU8 X, b := toU8 c }
  else if k = 4 then { r := toU8 X, g := 0, b := toU8 c }
  else { r := toU8 c, g := 0, b := toU8 X }

/-- The function `hsv_to_rgb(hue, min, max, p)`; the result is the value written
to `*p`, or `none` when the divisor `max - min` is zero. -/
def hsv_to_rgb (hue min max : Int) : Option rgb_t :=
  let max := guardMax min max
  let hue := if invert ≠ 0 then wrap32 (max - wrap32 (hue - min)) else hue
  if saturation = 0 then
    if divisor min max = 0 then none
    else
      let v := u8 (Int.tdiv (wrap32 (255 * wrap32 (max - hue))) (divisor min max))
      some { r := v, g := v, b := v }
  else if divisor min max = 0 then none
  else some (hsv_switch (hsv_h hue min max))

/-! ## The escape loop of `writePng` (lines 86-91, 115-127) -/

def IterationMax : Int := 200

def EscapeRadius : ℚ := 2

def ER2 : ℚ := EscapeRadius * EscapeRadius

/-- The loop variables `Zx, Zy, Zx2, Zy2, Iteration`. -/
structure Orbit where
  Zx : ℚ
  Zy : ℚ
  Zx2 : ℚ
  Zy2 : ℚ
  Iteration : Int
deriving DecidableEq

/-- Lines 116-119 and the loop start `Iteration = 0`. -/
def orbitInit : Orbit :=
  { Zx := 0, Zy := 0, Zx2 := 0 * 0, Zy2 := 0 * 0, Iteration := 0 }

/-- The loop test `Iteration < IterationMax && ((Zx2 + Zy2) < ER2)`. -/
def loopCond (s : Orbit) : Prop := s.Iteration < IterationMax ∧ s.Zx2 + s.Zy2 < ER2

instance (s : Orbit) : Decidable (loopCond s) := by
  unfold loopCond
  infer_instance

/-- One pass: lines 123-126 followed by `Iteration++`. -/
def loopBody (Cx Cy : ℚ) (s : Orbit) : Orbit :=
  let Zy := 2 * s.Zx * s.Zy + Cy
  let Zx := s.Zx2 - s.Zy2 + Cx
  { Zx := Zx, Zy := Zy, Zx2 := Zx * Zx, Zy2 := Zy * Zy, Iteration := s.Iteration + 1 }

/-- The `for` loop of line 121, run from the loop state `s` until its test fails. -/
def escapeLoop (Cx Cy : ℚ) (s : Orbit) : Orbit :=
  if loopCond s then escapeLoop Cx Cy (loopBody Cx Cy s) else s
termination_by (IterationMax - s.Iteration).toNat
decreasing_by
  have h : s.Iteration < IterationMax := by
    rename_i hc
    exact hc.1
  simp only [loopBody]
  omega

/-- The loop variables after `n` passes of the loop body from the start state. -/
def passes (Cx Cy : ℚ) (n : ℕ) : Orbit := (loopBody Cx Cy)^[n] orbitInit

/-- The value of `Iteration` after the escape loop for the sample point `(Cx, Cy)`. -/
def iterationCount (Cx Cy : ℚ) : Int := (escapeLoop Cx Cy orbitInit).Iteration

/-! ## The two passes of `writePng` (lines 74-80, 101-150) -/

def CxMin : ℚ := -5 / 2

def CxMax : ℚ := 3 / 2

def CyMin : ℚ := -2

def CyMax : ℚ := 2

def PixelWidth : ℚ := (CxMax - CxMin) / (iXmax : ℚ)

def PixelHeight : ℚ := (CyMax - CyMin) / (iYmax : ℚ)

/-- A counted loop `for (i = i0; i < bound; i++) body`, threading the state. -/
def forUpTo {σ : Type} (bound : Int) (body : Int → σ → σ) (i : Int) (s : σ) : σ :=
  if i < bound then forUpTo bound body (i + 1) (body i s) else s
termination_by (bound - i).toNat
decreasing_by omega

/-- The pixel buffer `pImage`, as the byte found at each offset. -/
abbrev Image := Int → Nat

/-- The assignment `p[a] = v`. -/
def store (m : Image) (a : Int) (v : Nat) : Image := fun i => if i = a then v else m i

/-- Lines 111 and 144: the offset `(iX * 3) + (iY * iXmax * 3)` of `color` in `pImage`. -/
def pixelOffset (iX iY : Int) : Int := iX * 3 + iY * iXmax * 3

/-- Lines 105-107: the ordinate of row `iY`, snapped to zero near the real axis. -/
def rowCy (iY : Int) : ℚ :=
  let Cy := CyMin + (iY : ℚ) * PixelHeight
  if fabs Cy < PixelHeight / 2 then 0 else Cy

/-- Line 113: the abscissa of column `iX`. -/
def colCx (iX : Int) : ℚ := CxMin + (iX : ℚ) * PixelWidth

/-- The iteration count the rasterizer computes for the pixel `(iX, iY)`. -/
def pixelCount (iX iY : Int) : Int := iterationCount (colCx iX) (rowCy iY)

/-- Line 129: the byte `color[0] = (uint8_t)Iteration`. -/
def countByte0 (Iteration : Int) : Nat := u8 Iteration

/-- Line 130: the byte `color[1] = (uint8_t)Iteration >> 8`; the cast binds
tighter than the shift. -/
def countByte1 (Iteration : Int) : Nat := u8 ((u8 Iteration >>> 8 : Nat) : Int)

/-- Line 146: `Iterations = color[0] | (color[1] << 8U)`. -/
def readIterations (c0 c1 : Nat) : Nat := c0 ||| (c1 <<< 8)

/-- The variables the rasterization pass carries from pixel to pixel. -/
structure Raster where
  pImage : Image
  MinIter : Int
  MaxIter : Int

/-- Lines 111-136: the body of the inner loop of the rasterization pass. -/
def rasterPixel (iY : Int) (Cy : ℚ) (iX : Int) (st : Raster) : Raster :=
  let color := pixelOffset iX iY
  let Cx := colCx iX
  let Iteration := (escapeLoop Cx Cy orbitInit).Iteration
  let m0 := store st.pImage color (countByte0 Iteration)
  let m1 := store m0 (color + 1) (countByte1 Iteration)
  let m2 := store m1 (color + 2) 0
  { pImage := m2
    MinIter := if Iteration < st.MinIter then Iteration else st.MinIter
    MaxIter := if Iteration > st.MaxIter then Iteration else st.MaxIter }

/-- Lines 105-137: the body of the outer loop of the rasterization pass. -/
def rasterRow (iY : Int) (st : Raster) : Raster :=
  let Cy := rowCy iY
  forUpTo iXmax (rasterPixel iY Cy) 0 st

/-- Lines 101-138: the rasterization pass over a freshly allocated buffer `pImage`. -/
def rasterPass (pImage : Image) : Raster :=
  forUpTo iYmax rasterRow 0 { pImage := pImage, MinIter := 9999, MaxIter := 0 }

/-- Lines 144-148: the body of the inner loop of the palette pass; `hsv_to_rgb`
writes its result over the three bytes of the pixel. -/
def palettePixel (MinIter MaxIter : Int) (iY iX : Int) (pImage : Image) : Option Image :=
  let color := pixelOffset iX iY
  let Iterations := readIterations (pImage color) (pImage (color + 1))
  match hsv_to_rgb (Iterations : Int) MinIter MaxIter with
  | none => none
  | some p => some (store (store (store pImage color p.r) (color + 1) p.g) (color + 2) p.b)

/-- Lines 142-149: one row of the palette pass. -/
def paletteRow (MinIter MaxIter : Int) (iY : Int) (st : Option Image) : Option Image :=
  forUpTo iXmax (fun iX s => s.bind (palettePixel MinIter MaxIter iY iX)) 0 st

/-- Lines 140-150: the palette pass. -/
def palettePass (MinIter MaxIter : Int) (pImage : Image) : Option Image :=
  forUpTo iYmax (paletteRow MinIter MaxIter) 0 (some pImage)

/-- Lines 101-150 of `writePng`: both passes over the buffer, whose content after
allocation is `pImage`; the result is the buffer handed to the encoder. -/
def renderImage (pImage : Image) : Option Image :=
  let st := rasterPass pImage
  palettePass st.MinIter st.MaxIter st.pImage

/-! ## Specification-side notions -/

/-- The mathematical remainder `x mod m` of the specification: `x - m * ⌊x / m⌋`. -/
def specMod (x m : ℚ) : ℚ := x - m * (⌊x / m⌋ : ℚ)

/-- The specification's `max`: `min + 1` when `min = max`. -/
def specMax (min max : Int) : Int := if min = max then min + 1 else max

/-- The specification's hue position `h = (1e-4 + 4 * (hue - min) / (max - min)) mod 6`. -/
def specHue (hue min max : Int) : ℚ :=
  specMod (1 / 10000 + 4 * ((hue : ℚ) - (min : ℚ)) / ((specMax min max : ℚ) - (min : ℚ))) 6

/-- The specification's `X = c * (1 - |(h mod 2) - 1|)` with `c = 255`. -/
def specX (h : ℚ) : ℚ := 255 * (1 - |specMod h 2 - 1|)

/-! ## Loop invariants of the two passes -/

/-- Pixel `(x, y)` has been visited when the nested loops stand at `(iX, iY)`. -/
def Visited (iY iX x y : Int) : Prop :=
  0 ≤ x ∧ x < iXmax ∧ 0 ≤ y ∧ (y < iY ∨ (y = iY ∧ x < iX))

/-- Invariant of the rasterization pass at loop position `(iX, iY)`. -/
def RasterInv (iY iX : Int) (st : Raster) : Prop :=
  (∀ x y : Int, Visited iY iX x y →
    st.MinIter ≤ pixelCount x y ∧ pixelCount x y ≤ st.MaxIter ∧
    st.pImage (pixelOffset x y) = countByte0 (pixelCount x y) ∧
    st.pImage (pixelOffset x y + 1) = countByte1 (pixelCount x y)) ∧
  (st.MinIter = 9999 ∨ ∃ x y : Int, Visited iY iX x y ∧ pixelCount x y = st.MinIter) ∧
  (st.MaxIter = 0 ∨ ∃ x y : Int, Visited iY iX x y ∧ pixelCount x y = st.MaxIter)

/-- Invariant of the palette pass at loop position `(iX, iY)`: visited pixels hold
their colour, the others still hold their packed count. -/
def PaletteInv (MinIter MaxIter iY iX : Int) (s : Option Image) : Prop :=
  ∃ img : Image, s = some img ∧
    ∀ x y : Int, 0 ≤ x → x < 800 → 0 ≤ y → y < 800 →
      (Visited iY iX x y →
        ∃ p : rgb_t, hsv_to_rgb (pixelCount x y) MinIter MaxIter = some p ∧
          img (pixelOffset x y) = p.r ∧ img (pixelOffset x y + 1) = p.g ∧
          img (pixelOffset x y + 2) = p.b) ∧
      (¬ Visited iY iX x y →
        img (pixelOffset x y) = countByte0 (pixelCount x y) ∧
        img (pixelOffset x y + 1) = countByte1 (pixelCount x y))

/-! ## Machine arithmetic lemmas -/

theorem wrap32_of_range (x : Int) (h0 : -2147483648 ≤ x) (h1 : x < 2147483648) :
    wrap32 x = x := by
  unfold wrap32
  omega

theorem divisor_guard_self (n : Int) : divisor n (guardMax n n) = 1 := by
  unfold divisor guardMax wrap32
  simp only [if_true]
  omega

theorem toInt_of_nonneg (x : ℚ) (hx : 0 ≤ x) : toInt x = ⌊x⌋ := by
  unfold toInt
  rw [if_pos hx]

theorem fmod_eq_specMod (x m : ℚ) (hx : 0 ≤ x) (hm : 0 < m) : fmod x m = specMod x m := by
  unfold fmod specMod
  rw [toInt_of_nonneg _ (div_nonneg hx hm.le)]

theorem specMod_nonneg (x m : ℚ) (hm : 0 < m) : 0 ≤ specMod x m := by
  unfold specMod
  have h := Int.floor_le (x / m)
  have h2 : (⌊x / m⌋ : ℚ) * m ≤ x := by
    rwa [le_div_iff₀ hm] at h
  linarith

theorem specMod_lt (x m : ℚ) (hm : 0 < m) : specMod x m < m := by
  unfold specMod
  have h := Int.lt_floor_add_one (x / m)
  have h2 : x < ((⌊x / m⌋ : ℚ) + 1) * m := by
    rwa [div_lt_iff₀ hm] at h
  linarith

theorem specMod_of_lt (x m : ℚ) (hx : 0 ≤ x) (hxm : x < m) : specMod x m = x := by
  unfold specMod
  have hm : 0 < m := lt_of_le_of_lt hx hxm
  have : ⌊x / m⌋ = 0 := by
    rw [Int.floor_eq_iff]
    constructor
    · simpa using div_nonneg hx hm.le
    · simpa using (div_lt_one hm).2 hxm
  rw [this]
  simp

theorem u8_of_range (k : Int) (h0 : 0 ≤ k) (h1 : k < 256) : u8 k = k.toNat := by
  unfold u8
  rw [Int.emod_eq_of_lt h0 h1]

theorem toU8_of_range (x : ℚ) (h0 : 0 ≤ x) (h1 : x < 256) : toU8 x = ⌊x⌋.toNat := by
  unfold toU8
  rw [toInt_of_nonneg x h0]
  apply u8_of_range
  · exact Int.floor_nonneg.2 h0
  · exact Int.floor_lt.2 (by exact_mod_cast h1)

theorem hsv_c_eq : hsv_c = 255 := by
  unfold hsv_c saturation
  norm_num

theorem toU8_c : toU8 hsv_c = 255 := by
  rw [hsv_c_eq, toU8_of_range _ (by norm_num) (by norm_num)]
  have : ⌊(255 : ℚ)⌋ = 255 := Int.floor_natCast 255
  rw [this]
  rfl

theorem hsv_X_eq_specX (h : ℚ) (hh : 0 ≤ h) : hsv_X h = specX h := by
  unfold hsv_X specX fabs
  rw [hsv_c_eq, fmod_eq_specMod h 2 hh (by norm_num)]

theorem specX_nonneg (h : ℚ) : 0 ≤ specX h := by
  unfold specX
  have h0 := specMod_nonneg h 2 (by norm_num)
  have h1 := specMod_lt h 2 (by norm_num)
  have : |specMod h 2 - 1| ≤ 1 := by
    rw [abs_le]
    constructor <;> linarith
  linarith

theorem specX_le (h : ℚ) : specX h ≤ 255 := by
  unfold specX
  have := abs_nonneg (specMod h 2 - 1)
  linarith

theorem toU8_specX (h : ℚ) : toU8 (specX h) = ⌊specX h⌋.toNat :=
  toU8_of_range _ (specX_nonneg h) (lt_of_le_of_lt (specX_le h) (by norm_num))

theorem hsv_to_rgb_of_divisor (hue min max : Int) (hd : divisor min (guardMax min max) ≠ 0) :
    hsv_to_rgb hue min max = some (hsv_switch (hsv_h hue min (guardMax min max))) := by
  simp [hsv_to_rgb, invert, saturation, hd]

theorem divisor_guard_eq (min max : Int) (h0 : min ≤ max) (h1 : max - min < 2147483648) :
    divisor min (guardMax min max) = specMax min max - min := by
  unfold divisor guardMax specMax
  by_cases h : min = max
  · simp only [if_pos h]
    unfold wrap32
    omega
  · simp only [if_neg h]
    exact wrap32_of_range _ (by omega) h1

theorem specMax_sub_pos (min max : Int) (h0 : min ≤ max) : 0 < specMax min max - min := by
  unfold specMax
  split_ifs with h <;> omega

theorem hsv_h_eq_specHue (hue min max : Int) (hlo : min ≤ hue) (hhi : hue ≤ max)
    (hrange : max - min < 2147483648) :
    hsv_h hue min (guardMax min max) = specHue hue min max := by
  unfold hsv_h specHue
  rw [divisor_guard_eq min max (by omega) hrange, wrap32_of_range _ (by omega) (by omega)]
  have hD : (0 : ℚ) < ((specMax min max - min : Int) : ℚ) := by
    exact_mod_cast specMax_sub_pos min max (by omega)
  have hd : (0 : ℚ) ≤ ((hue - min : Int) : ℚ) := by
    exact_mod_cast (show (0 : Int) ≤ hue - min by omega)
  rw [fmod_eq_specMod _ 6 _ (by norm_num)]
  · simp only [color_rotate]
    push_cast
    norm_num
  · have := div_nonneg (mul_nonneg (by norm_num : (0 : ℚ) ≤ 4) hd) hD.le
    simp only [color_rotate]
    push_cast at this ⊢
    linarith

theorem specHue_nonneg (hue min max : Int) : 0 ≤ specHue hue min max :=
  specMod_nonneg _ 6 (by norm_num)

theorem specHue_lt (hue min max : Int) : specHue hue min max < 6 :=
  specMod_lt _ 6 (by norm_num)

/-! ## The palette mapper -/

theorem hsv_switch_of_nonneg (h : ℚ) (hh : 0 ≤ h) :
    hsv_switch h =
      if ⌊h⌋ = 0 then { r := 255, g := ⌊specX h⌋.toNat, b := 0 }
      else if ⌊h⌋ = 1 then { r := ⌊specX h⌋.toNat, g := 255, b := 0 }
      else if ⌊h⌋ = 2 then { r := 0, g := 255, b := ⌊specX h⌋.toNat }
      else if ⌊h⌋ = 3 then { r := 0, g := ⌊specX h⌋.toNat, b := 255 }
      else if ⌊h⌋ = 4 then { r := ⌊specX h⌋.toNat, g := 0, b := 255 }
      else { r := 255, g := 0, b := ⌊specX h⌋.toNat } := by
  unfold hsv_switch
  simp only [toU8_c, hsv_X_eq_specX h hh, toU8_specX, toInt_of_nonneg h hh]

/-- C6: on a count inside the range, the colour branch of `hsv_to_rgb` computes the
specification's `h`, `c = 255` and `X`, and writes `(c,X,0)`, `(X,c,0)`, `(0,c,X)`,
`(0,X,c)`, `(X,0,c)`, `(c,0,X)` for the segment `⌊h⌋ = 0, …, 5`, each channel
truncated to eight bits. -/
theorem hsv_to_rgb_colour_segments (hue min max : Int) (hlo : min ≤ hue) (hhi : hue ≤ max)
    (hrange : max - min < 2147483648) :
    hsv_h hue min (guardMax min max) = specHue hue min max ∧
    hsv_c = 255 ∧
    hsv_X (specHue hue min max) = specX (specHue hue min max) ∧
    toInt (specHue hue min max) = ⌊specHue hue min max⌋ ∧
    0 ≤ ⌊specHue hue min max⌋ ∧ ⌊specHue hue min max⌋ ≤ 5 ∧
    0 ≤ ⌊specX (specHue hue min max)⌋ ∧ ⌊specX (specHue hue min max)⌋ ≤ 255 ∧
    (⌊specHue hue min max⌋ = 0 → hsv_to_rgb hue min max =
      some { r := 255, g := ⌊specX (specHue hue min max)⌋.toNat, b := 0 }) ∧
    (⌊specHue hue min max⌋ = 1 → hsv_to_rgb hue min max =
      some { r := ⌊specX (specHue hue min max)⌋.toNat, g := 255, b := 0 }) ∧
    (⌊specHue hue min max⌋ = 2 → hsv_to_rgb hue min max =
      some { r := 0, g := 255, b := ⌊specX (specHue hue min max)⌋.toNat }) ∧
    (⌊specHue hue min max⌋ = 3 → hsv_to_rgb hue min max =
      some { r := 0, g := ⌊specX (specHue hue min max)⌋.toNat, b := 255 }) ∧
    (⌊specHue hue min max⌋ = 4 → hsv_to_rgb hue min max =
      some { r := ⌊specX (specHue hue min max)⌋.toNat, g := 0, b := 255 }) ∧
    (⌊specHue hue min max⌋ = 5 → hsv_to_rgb hue min max =
      some { r := 255, g := 0, b := ⌊specX (specHue hue min max)⌋.toNat }) := by
  have hnn := specHue_nonneg hue min max
  have hlt := specHue_lt hue min max
  have hD : divisor min (guardMax min max) ≠ 0 := by
    rw [divisor_guard_eq min max (by omega) hrange]
    exact (specMax_sub_pos min max (by omega)).ne.symm
  have hres := hsv_to_rgb_of_divisor hue min max hD
  rw [hsv_h_eq_specHue hue min max hlo hhi hrange, hsv_switch_of_nonneg _ hnn] at hres
  refine ⟨hsv_h_eq_specHue hue min max hlo hhi hrange, hsv_c_eq, hsv_X_eq_specX _ hnn,
    toInt_of_nonneg _ hnn, Int.floor_nonneg.2 hnn, ?_, Int.floor_nonneg.2 (specX_nonneg _), ?_,
    ?_, ?_, ?_, ?_, ?_, ?_⟩
  · have : ⌊specHue hue min max⌋ < 6 := Int.floor_lt.2 (by exact_mod_cast hlt)
    omega
  · exact Int.floor_le_iff.2 (by have := specX_le (specHue hue min max); push_cast; linarith)
  all_goals
    intro hk
    rw [hres, hk]
    simp

theorem floor_of_mem (x : ℚ) (k : Int) (h0 : (k : ℚ) ≤ x) (h1 : x < (k : ℚ) + 1) : ⌊x⌋ = k :=
  Int.floor_eq_iff.2 ⟨h0, h1⟩

theorem specX_low : specX (1 / 10000) = 51 / 2000 := by
  unfold specX
  rw [specMod_of_lt _ 2 (by norm_num) (by norm_num)]
  rw [abs_of_nonpos (by norm_num)]
  norm_num

theorem specX_high : specX (4 + 1 / 10000) = 51 / 2000 := by
  unfold specX specMod
  have : ⌊((4 : ℚ) + 1 / 10000) / 2⌋ = 2 :=
    floor_of_mem _ 2 (by norm_num) (by norm_num)
  rw [this, abs_of_nonpos (by norm_num)]
  norm_num

theorem hsv_switch_low : hsv_switch (1 / 10000) = { r := 255, g := 0, b := 0 } := by
  rw [hsv_switch_of_nonneg _ (by norm_num), specX_low]
  have h0 : ⌊(1 : ℚ) / 10000⌋ = 0 := floor_of_mem _ 0 (by norm_num) (by norm_num)
  have h1 : ⌊(51 : ℚ) / 2000⌋ = 0 := floor_of_mem _ 0 (by norm_num) (by norm_num)
  rw [h0, h1]
  rfl

theorem hsv_switch_high : hsv_switch (4 + 1 / 10000) = { r := 0, g := 0, b := 255 } := by
  rw [hsv_switch_of_nonneg _ (by norm_num), specX_high]
  have h0 : ⌊(4 : ℚ) + 1 / 10000⌋ = 4 := floor_of_mem _ 4 (by norm_num) (by norm_num)
  have h1 : ⌊(51 : ℚ) / 2000⌋ = 0 := floor_of_mem _ 0 (by norm_num) (by norm_num)
  rw [h0, h1]
  rfl

theorem hsv_h_of_divisor_one (n max : Int) (hd : divisor n max = 1) :
    hsv_h n n max = 1 / 10000 := by
  unfold hsv_h
  rw [hd]
  have : wrap32 (n - n) = 0 := by
    unfold wrap32
    omega
  rw [this]
  simp only [color_rotate]
  norm_num
  rw [fmod_eq_specMod _ 6 (by norm_num) (by norm_num), specMod_of_lt _ 6 (by norm_num) (by norm_num)]

/-- C7: with `hue = min = max = n` the guard replaces `max` by `min + 1`, the divisor
`max - min` is 1 (so nothing is divided by zero), and the pixel receives the colour
`(255, 0, 0)`, the same as `hsv_to_rgb(n, n, n + 1)`. -/
theorem hsv_to_rgb_degenerate_range (n : Int) :
    divisor n (guardMax n n) = 1 ∧
    hsv_to_rgb n n n = some { r := 255, g := 0, b := 0 } ∧
    hsv_to_rgb n n n = hsv_to_rgb n n (n + 1) := by
  have hd := divisor_guard_self n
  have hg : guardMax n (n + 1) = n + 1 := by
    unfold guardMax
    rw [if_neg (by omega)]
  have hd2 : divisor n (guardMax n (n + 1)) = 1 := by
    rw [hg]
    unfold divisor wrap32
    omega
  have e1 : hsv_to_rgb n n n = some { r := 255, g := 0, b := 0 } := by
    rw [hsv_to_rgb_of_divisor n n n (by rw [hd]; decide), hsv_h_of_divisor_one n _ hd,
      hsv_switch_low]
  have e2 : hsv_to_rgb n n (n + 1) = some { r := 255, g := 0, b := 0 } := by
    rw [hsv_to_rgb_of_divisor n n (n + 1) (by rw [hd2]; decide), hsv_h_of_divisor_one n _ hd2,
      hsv_switch_low]
  exact ⟨hd, e1, e1.trans e2.symm⟩

theorem specHue_of_lt (hue min max : Int) (hlt : min < max) (hlo : min ≤ hue) (hhi : hue ≤ max) :
    specHue hue min max = 1 / 10000 + 4 * ((hue : ℚ) - (min : ℚ)) / ((max : ℚ) - (min : ℚ)) ∧
    1 / 10000 ≤ specHue hue min max ∧ specHue hue min max ≤ 4 + 1 / 10000 := by
  have hD : (0 : ℚ) < (max : ℚ) - (min : ℚ) := by
    have : (min : ℚ) < (max : ℚ) := by exact_mod_cast hlt
    linarith
  have hd : (0 : ℚ) ≤ (hue : ℚ) - (min : ℚ) := by
    have : (min : ℚ) ≤ (hue : ℚ) := by exact_mod_cast hlo
    linarith
  have hdD : (hue : ℚ) - (min : ℚ) ≤ (max : ℚ) - (min : ℚ) := by
    have : (hue : ℚ) ≤ (max : ℚ) := by exact_mod_cast hhi
    linarith
  have hq0 : 0 ≤ 4 * ((hue : ℚ) - (min : ℚ)) / ((max : ℚ) - (min : ℚ)) :=
    div_nonneg (mul_nonneg (by norm_num) hd) hD.le
  have hq1 : 4 * ((hue : ℚ) - (min : ℚ)) / ((max : ℚ) - (min : ℚ)) ≤ 4 := by
    rw [div_le_iff₀ hD]
    linarith
  have e : specHue hue min max =
      1 / 10000 + 4 * ((hue : ℚ) - (min : ℚ)) / ((max : ℚ) - (min : ℚ)) := by
    unfold specHue specMax
    rw [if_neg (by omega)]
    exact specMod_of_lt _ 6 (by linarith) (by linarith)
  rw [e]
  exact ⟨rfl, by linarith, by linarith⟩

/-- C10: with `min < max` and `min ≤ hue ≤ max`, the `h` of `hsv_to_rgb` lies in
`[1e-4, 4 + 1e-4]`, the segment `(int)h` is one of 0, 1, 2, 3, 4 (the default branch of
the switch is not taken), `hue = min` gives `(255, 0, 0)` and `hue = max` gives
`(0, 0, 255)`. -/
theorem hsv_to_rgb_segment_range (hue min max : Int) (hlt : min < max) (hlo : min ≤ hue)
    (hhi : hue ≤ max) (hrange : max - min < 2147483648) :
    1 / 10000 ≤ hsv_h hue min (guardMax min max) ∧
    hsv_h hue min (guardMax min max) ≤ 4 + 1 / 10000 ∧
    0 ≤ toInt (hsv_h hue min (guardMax min max)) ∧
    toInt (hsv_h hue min (guardMax min max)) ≤ 4 ∧
    hsv_to_rgb min min max = some { r := 255, g := 0, b := 0 } ∧
    hsv_to_rgb max min max = some { r := 0, g := 0, b := 255 } := by
  have hD : divisor min (guardMax min max) ≠ 0 := by
    rw [divisor_guard_eq min max (by omega) hrange]
    exact (specMax_sub_pos min max (by omega)).ne.symm
  obtain ⟨_, h1, h2⟩ := specHue_of_lt hue min max hlt hlo hhi
  have hmin := (specHue_of_lt min min max hlt le_rfl hlt.le).1
  have hmax := (specHue_of_lt max min max hlt hlt.le le_rfl).1
  have hDq : (max : ℚ) - (min : ℚ) ≠ 0 := by
    have : (min : ℚ) < (max : ℚ) := by exact_mod_cast hlt
    linarith
  rw [sub_self, mul_zero, zero_div, add_zero] at hmin
  rw [mul_div_assoc, div_self hDq, mul_one, add_comm] at hmax
  rw [hsv_h_eq_specHue hue min max hlo hhi hrange, toInt_of_nonneg _ (by linarith)]
  refine ⟨h1, h2, Int.floor_nonneg.2 (by linarith), ?_, ?_, ?_⟩
  · have : ⌊specHue hue min max⌋ < 5 := Int.floor_lt.2 (by push_cast; linarith)
    omega
  · rw [hsv_to_rgb_of_divisor min min max hD, hsv_h_eq_specHue min min max le_rfl hlt.le hrange,
      hmin, hsv_switch_low]
  · rw [hsv_to_rgb_of_divisor max min max hD, hsv_h_eq_specHue max min max hlt.le le_rfl hrange,
      hmax, hsv_switch_high]

/-- Witness of C6 at `hue = 30`, `min = 0`, `max = 200`: segment 0, `X = 153.0255`. -/
theorem hsv_to_rgb_colour_segments_witness :
    hsv_to_rgb 30 0 200 = some { r := 255, g := 153, b := 0 } := by
  have hh : specHue 30 0 200 = 6001 / 10000 := by
    rw [(specHue_of_lt 30 0 200 (by decide) (by decide) (by decide)).1]
    norm_num
  have hX : specX (6001 / 10000) = 306051 / 2000 := by
    unfold specX
    rw [specMod_of_lt _ 2 (by norm_num) (by norm_num), abs_of_nonpos (by norm_num)]
    norm_num
  have h0 : ⌊(6001 : ℚ) / 10000⌋ = 0 := floor_of_mem _ 0 (by norm_num) (by norm_num)
  have h1 : ⌊(306051 : ℚ) / 2000⌋ = 153 := floor_of_mem _ 153 (by norm_num) (by norm_num)
  have key :=
    (hsv_to_rgb_colour_segments 30 0 200 (by decide) (by decide) (by decide)).2.2.2.2.2.2.2.2.1
  rw [hh, hX, h1] at key
  exact key h0

/-- Witness of C10 at `hue = 50`, `min = 0`, `max = 200`. -/
theorem hsv_to_rgb_segment_range_witness :
    1 / 10000 ≤ hsv_h 50 0 (guardMax 0 200) ∧
    hsv_h 50 0 (guardMax 0 200) ≤ 4 + 1 / 10000 ∧
    0 ≤ toInt (hsv_h 50 0 (guardMax 0 200)) ∧
    toInt (hsv_h 50 0 (guardMax 0 200)) ≤ 4 ∧
    hsv_to_rgb 0 0 200 = some { r := 255, g := 0, b := 0 } ∧
    hsv_to_rgb 200 0 200 = some { r := 0, g := 0, b := 255 } :=
  hsv_to_rgb_segment_range 50 0 200 (by decide) (by decide) (by decide) (by decide)

/-! ## The escape loop -/

theorem escapeLoop_unfold (Cx Cy : ℚ) (s : Orbit) :
    escapeLoop Cx Cy s = if loopCond s then escapeLoop Cx Cy (loopBody Cx Cy s) else s := by
  rw [escapeLoop]

/-- The loop state after `n` passes from `s`. -/
theorem iterate_Iteration (Cx Cy : ℚ) (s : Orbit) (n : ℕ) :
    ((loopBody Cx Cy)^[n] s).Iteration = s.Iteration + n := by
  induction n generalizing s with
  | zero => simp
  | succ k ih =>
    rw [Function.iterate_succ_apply, ih]
    simp only [loopBody]
    push_cast
    ring

/-- The escape loop stops after some number `j` of passes: its test fails there
and held before each earlier pass. -/
theorem escapeLoop_passes (Cx Cy : ℚ) (s : Orbit) :
    ∃ j : ℕ, escapeLoop Cx Cy s = (loopBody Cx Cy)^[j] s ∧
      ¬ loopCond ((loopBody Cx Cy)^[j] s) ∧
      ∀ i : ℕ, i < j → loopCond ((loopBody Cx Cy)^[i] s) := by
  generalize hm : (IterationMax - s.Iteration).toNat = m
  induction m generalizing s with
  | zero =>
    refine ⟨0, ?_, ?_, ?_⟩
    · rw [escapeLoop_unfold, if_neg]
      · rfl
      · intro hc
        have := hc.1
        omega
    · intro hc
      have := hc.1
      simp only [Function.iterate_zero, id_eq] at this
      omega
    · intro i hi
      omega
  | succ k ih =>
    by_cases hc : loopCond s
    · have hk : (IterationMax - (loopBody Cx Cy s).Iteration).toNat = k := by
        simp only [loopBody]
        omega
      obtain ⟨j, e, hstop, hrun⟩ := ih (loopBody Cx Cy s) hk
      refine ⟨j + 1, ?_, ?_, ?_⟩
      · rw [escapeLoop_unfold, if_pos hc, e, Function.iterate_succ_apply]
      · rwa [Function.iterate_succ_apply]
      · intro i hi
        cases i with
        | zero => exact hc
        | succ i =>
          rw [Function.iterate_succ_apply]
          exact hrun i (by omega)
    · refine ⟨0, ?_, hc, ?_⟩
      · rw [escapeLoop_unfold, if_neg hc]
        rfl
      · intro i hi
        omega

theorem passes_succ (Cx Cy : ℚ) (n : ℕ) :
    passes Cx Cy (n + 1) = loopBody Cx Cy (passes Cx Cy n) := by
  unfold passes
  rw [Function.iterate_succ_apply']

theorem passes_Iteration (Cx Cy : ℚ) (n : ℕ) : (passes Cx Cy n).Iteration = n := by
  unfold passes
  rw [iterate_Iteration]
  simp [orbitInit]

theorem passes_squares (Cx Cy : ℚ) (n : ℕ) :
    (passes Cx Cy n).Zx2 = (passes Cx Cy n).Zx ^ 2 ∧
    (passes Cx Cy n).Zy2 = (passes Cx Cy n).Zy ^ 2 := by
  cases n with
  | zero => simp [passes, orbitInit]
  | succ k =>
    rw [passes_succ]
    simp only [loopBody]
    constructor <;> ring

theorem passes_orbit (Cx Cy : ℚ) (n : ℕ) :
    ((passes Cx Cy n).Zx : ℂ) + ((passes Cx Cy n).Zy : ℂ) * Complex.I =
      (fun Z : ℂ => Z ^ 2 + ((Cx : ℂ) + (Cy : ℂ) * Complex.I))^[n] 0 := by
  induction n with
  | zero => simp [passes, orbitInit]
  | succ k ih =>
    rw [Function.iterate_succ_apply', ← ih, passes_succ]
    obtain ⟨hx, hy⟩ := passes_squares Cx Cy k
    simp only [loopBody, hx, hy]
    push_cast
    linear_combination (-((passes Cx Cy k).Zy : ℂ) ^ 2) * Complex.I_sq

theorem normSq_orbit (Cx Cy : ℚ) (n : ℕ) :
    Complex.normSq ((fun Z : ℂ => Z ^ 2 + ((Cx : ℂ) + (Cy : ℂ) * Complex.I))^[n] 0) =
      (((passes Cx Cy n).Zx2 + (passes Cx Cy n).Zy2 : ℚ) : ℝ) := by
  rw [← passes_orbit]
  obtain ⟨hx, hy⟩ := passes_squares Cx Cy n
  rw [hx, hy, ← Complex.ofReal_ratCast, ← Complex.ofReal_ratCast, Complex.normSq_add_mul_I]
  push_cast
  rfl

theorem loopCond_passes (Cx Cy : ℚ) (n : ℕ) :
    loopCond (passes Cx Cy n) ↔
      (n : Int) < IterationMax ∧
      Complex.normSq ((fun Z : ℂ => Z ^ 2 + ((Cx : ℂ) + (Cy : ℂ) * Complex.I))^[n] 0) < (ER2 : ℝ) := by
  unfold loopCond
  rw [passes_Iteration, normSq_orbit]
  constructor
  · rintro ⟨h1, h2⟩
    exact ⟨h1, by exact_mod_cast h2⟩
  · rintro ⟨h1, h2⟩
    exact ⟨h1, by exact_mod_cast h2⟩

/-- The escape loop from the start state performs `j ≤ IterationMax` passes, where `j`
is the first pass count at which the loop test fails. -/
theorem iterationCount_passes (Cx Cy : ℚ) :
    ∃ j : ℕ, iterationCount Cx Cy = j ∧ escapeLoop Cx Cy orbitInit = passes Cx Cy j ∧
      (j : Int) ≤ IterationMax ∧ ¬ loopCond (passes Cx Cy j) ∧
      ∀ i : ℕ, i < j → loopCond (passes Cx Cy i) := by
  obtain ⟨j, e, hstop, hrun⟩ := escapeLoop_passes Cx Cy orbitInit
  refine ⟨j, ?_, e, ?_, hstop, hrun⟩
  · unfold iterationCount
    rw [e]
    exact passes_Iteration Cx Cy j
  · by_contra hgt
    have h200 : (200 : ℕ) < j := by
      unfold IterationMax at hgt
      omega
    have := (hrun 200 h200).1
    change (passes Cx Cy 200).Iteration < IterationMax at this
    rw [passes_Iteration] at this
    unfold IterationMax at this
    omega

theorem iterationCount_range (Cx Cy : ℚ) :
    0 ≤ iterationCount Cx Cy ∧ iterationCount Cx Cy ≤ IterationMax := by
  obtain ⟨j, e, _, hle, _, _⟩ := iterationCount_passes Cx Cy
  rw [e]
  exact ⟨by omega, hle⟩

/-- C1: after `n` passes the escape loop holds `Zx + i*Zy = Z_n`, `Zx2 = Zx^2`,
`Zy2 = Zy^2` (with `Z_0 = 0`, `Z_{n+1} = Z_n^2 + C`), and the final `Iteration` is the
least `n` in `[0, IterationMax]` with `|Z_n|^2 ≥ ER2` or `n = IterationMax`. -/
theorem escapeLoop_orbit_first_escape (Cx Cy : ℚ) :
    IterationMax = 200 ∧ ER2 = 4 ∧
    (∀ n : ℕ,
      ((passes Cx Cy n).Zx : ℂ) + ((passes Cx Cy n).Zy : ℂ) * Complex.I =
        (fun Z : ℂ => Z ^ 2 + ((Cx : ℂ) + (Cy : ℂ) * Complex.I))^[n] 0 ∧
      (passes Cx Cy n).Zx2 = (passes Cx Cy n).Zx ^ 2 ∧
      (passes Cx Cy n).Zy2 = (passes Cx Cy n).Zy ^ 2 ∧
      (passes Cx Cy n).Iteration = n) ∧
    (∃ N : ℕ, iterationCount Cx Cy = N ∧
      escapeLoop Cx Cy orbitInit = passes Cx Cy N ∧
      ((ER2 : ℝ) ≤ Complex.normSq
          ((fun Z : ℂ => Z ^ 2 + ((Cx : ℂ) + (Cy : ℂ) * Complex.I))^[N] 0) ∨
        (N : Int) = IterationMax) ∧
      ∀ m : ℕ, m < N →
        ¬ ((ER2 : ℝ) ≤ Complex.normSq
            ((fun Z : ℂ => Z ^ 2 + ((Cx : ℂ) + (Cy : ℂ) * Complex.I))^[m] 0) ∨
          (m : Int) = IterationMax)) ∧
    0 ≤ iterationCount Cx Cy ∧ iterationCount Cx Cy ≤ IterationMax := by
  refine ⟨rfl, by norm_num [ER2, EscapeRadius], ?_, ?_, iterationCount_range Cx Cy⟩
  · intro n
    exact ⟨passes_orbit Cx Cy n, (passes_squares Cx Cy n).1, (passes_squares Cx Cy n).2,
      passes_Iteration Cx Cy n⟩
  · obtain ⟨j, e, hfin, hle, hstop, hrun⟩ := iterationCount_passes Cx Cy
    refine ⟨j, e, hfin, ?_, ?_⟩
    · rw [loopCond_passes] at hstop
      by_cases hj : (j : Int) < IterationMax
      · left
        by_contra hlt
        exact hstop ⟨hj, lt_of_not_le hlt⟩
      · right
        omega
    · intro m hm
      have hc := (loopCond_passes Cx Cy m).1 (hrun m hm)
      rintro (h | h)
      · exact absurd hc.2 (not_lt.2 h)
      · have := hc.1
        omega

theorem ER2_eq : ER2 = 4 := by
  norm_num [ER2, EscapeRadius]

theorem loopCond_orbitInit : loopCond orbitInit := by
  unfold loopCond orbitInit IterationMax
  rw [ER2_eq]
  norm_num

/-- A sample point on or outside the escape circle: the loop runs its first pass
from `Z = 0` and stops at the next test. -/
theorem iterationCount_outside (Cx Cy : ℚ) (hout : ER2 ≤ Cx ^ 2 + Cy ^ 2) :
    iterationCount Cx Cy = 1 := by
  unfold iterationCount
  rw [escapeLoop_unfold, if_pos loopCond_orbitInit, escapeLoop_unfold, if_neg]
  · simp [loopBody, orbitInit]
  · intro hc
    have h2 := hc.2
    simp only [loopBody, orbitInit] at h2
    have : Cx ^ 2 + Cy ^ 2 < ER2 := by
      calc Cx ^ 2 + Cy ^ 2 = (0 * 0 - 0 * 0 + Cx) * (0 * 0 - 0 * 0 + Cx)
            + (2 * 0 * 0 + Cy) * (2 * 0 * 0 + Cy) := by ring
        _ < ER2 := h2
    exact absurd hout (not_le.2 this)

/-- C2 (as the code has it): for every sample point with `Cx^2 + Cy^2 ≥ EscapeRadius^2`
the escape loop yields the iteration count 1: the first test is made on `Z_0 = 0`, so
one pass always runs before the escape is seen. -/
theorem iterationCount_outside_eq_one (Cx Cy : ℚ)
    (hout : EscapeRadius ^ 2 ≤ Cx ^ 2 + Cy ^ 2) : iterationCount Cx Cy = 1 := by
  apply iterationCount_outside
  rw [ER2]
  rwa [pow_two] at hout

/-- Witness of C2 as amended, at the sample point `(100, 100)`. -/
theorem iterationCount_outside_eq_one_witness :
    EscapeRadius ^ 2 ≤ (100 : ℚ) ^ 2 + (100 : ℚ) ^ 2 ∧ iterationCount 100 100 = 1 :=
  ⟨by norm_num [EscapeRadius],
    iterationCount_outside_eq_one 100 100 (by norm_num [EscapeRadius])⟩

/-- C2 fails as stated: the sample point `(100, 100)` lies outside the escape circle and
its iteration count is 1, not 0. -/
theorem iterationCount_outside_ne_zero :
    EscapeRadius ^ 2 = 4 ∧ (4 : ℚ) ≤ (100 : ℚ) ^ 2 + (100 : ℚ) ^ 2 ∧
    iterationCount 100 100 = 1 ∧
    ¬ (∀ Cx Cy : ℚ, EscapeRadius ^ 2 ≤ Cx ^ 2 + Cy ^ 2 → iterationCount Cx Cy = 0) := by
  have h : iterationCount 100 100 = 1 :=
    iterationCount_outside 100 100 (by rw [ER2_eq]; norm_num)
  refine ⟨by norm_num [EscapeRadius], by norm_num, h, ?_⟩
  intro hall
  have := hall 100 100 (by norm_num [EscapeRadius])
  rw [h] at this
  exact absurd this (by decide)

theorem passes_origin (n : ℕ) :
    passes 0 0 n = { Zx := 0, Zy := 0, Zx2 := 0, Zy2 := 0, Iteration := n } := by
  induction n with
  | zero => simp [passes, orbitInit]
  | succ k ih =>
    rw [passes_succ, ih]
    simp [loopBody]

/-- C3: for the sample point `(0, 0)` the escape test `Zx2 + Zy2 >= ER2` is false after
every number of passes, and the iteration count is `IterationMax = 200`. -/
theorem iterationCount_origin :
    (∀ n : ℕ, ¬ (ER2 ≤ (passes 0 0 n).Zx2 + (passes 0 0 n).Zy2)) ∧
    iterationCount 0 0 = IterationMax ∧ IterationMax = 200 := by
  have hno : ∀ n : ℕ, ¬ (ER2 ≤ (passes 0 0 n).Zx2 + (passes 0 0 n).Zy2) := by
    intro n
    rw [passes_origin, ER2_eq]
    norm_num
  refine ⟨hno, ?_, rfl⟩
  obtain ⟨j, e, _, hle, hstop, _⟩ := iterationCount_passes 0 0
  rw [e]
  have hj : ¬ ((j : Int) < IterationMax) := by
    intro hlt
    apply hstop
    refine ⟨?_, lt_of_not_le (hno j)⟩
    rw [passes_Iteration]
    exact hlt
  omega

/-! ## The pixel buffer and the packed count -/

theorem u8_lt (x : Int) : u8 x < 256 := by
  unfold u8
  omega

theorem countByte1_eq_zero (Iteration : Int) : countByte1 Iteration = 0 := by
  unfold countByte1
  have h : u8 Iteration >>> 8 = 0 := by
    rw [Nat.shiftRight_eq_div_pow]
    have := u8_lt Iteration
    omega
  rw [h]
  rfl

theorem readIterations_stored (Iteration : Int) :
    readIterations (countByte0 Iteration) (countByte1 Iteration) = u8 Iteration := by
  rw [countByte1_eq_zero]
  unfold readIterations countByte0
  simp

theorem readIterations_of_small (n : Int) (h0 : 0 ≤ n) (h1 : n < 256) :
    ((readIterations (countByte0 n) (countByte1 n) : Nat) : Int) = n := by
  rw [readIterations_stored]
  unfold u8
  omega

/-- C9: the second channel byte `(uint8_t)Iteration >> 8` is 0 for every `int`
value; for `Iteration ≥ 0` the palette pass reads back `Iteration mod 256`, which
differs from `Iteration` as soon as `Iteration ≥ 256`. -/
theorem stored_count_low_byte_only (Iteration : Int) :
    countByte1 Iteration = 0 ∧
    (0 ≤ Iteration →
      ((readIterations (countByte0 Iteration) (countByte1 Iteration) : Nat) : Int)
        = Iteration % 256) ∧
    (256 ≤ Iteration →
      ((readIterations (countByte0 Iteration) (countByte1 Iteration) : Nat) : Int)
        ≠ Iteration) := by
  refine ⟨countByte1_eq_zero Iteration, ?_, ?_⟩
  · intro _
    rw [readIterations_stored]
    unfold u8
    omega
  · intro h
    rw [readIterations_stored]
    unfold u8
    omega

theorem rawImg_eq : rawImg = 1920000 := by
  decide

theorem pixelOffset_eq (iX iY : Int) : pixelOffset iX iY = 3 * iX + 2400 * iY := by
  unfold pixelOffset iXmax
  omega

/-- C8: the buffer has `rawImg = iXmax * iYmax * 3 = 1920000` bytes; the offset of
pixel `(iX, iY)` is `3 * (iY * iXmax + iX)` with `offset + 2 < rawImg`; distinct pixels
have disjoint byte triplets, and the triplets cover the whole buffer. -/
theorem pixel_triplets_tile_buffer :
    rawImg = 1920000 ∧ (rawImg : Int) = iXmax * iYmax * 3 ∧
    (∀ iX iY : Int, 0 ≤ iX → iX < 800 → 0 ≤ iY → iY < 800 →
      pixelOffset iX iY = 3 * (iY * iXmax + iX) ∧
      0 ≤ pixelOffset iX iY ∧ pixelOffset iX iY + 2 < (rawImg : Int)) ∧
    (∀ iX iY jX jY : Int, 0 ≤ iX → iX < 800 → 0 ≤ iY → iY < 800 →
      0 ≤ jX → jX < 800 → 0 ≤ jY → jY < 800 →
      pixelOffset iX iY = pixelOffset jX jY → iX = jX ∧ iY = jY) ∧
    (∀ iX iY jX jY k l : Int, 0 ≤ iX → iX < 800 → 0 ≤ iY → iY < 800 →
      0 ≤ jX → jX < 800 → 0 ≤ jY → jY < 800 → 0 ≤ k → k < 3 → 0 ≤ l → l < 3 →
      (iX, iY) ≠ (jX, jY) → pixelOffset iX iY + k ≠ pixelOffset jX jY + l) ∧
    (∀ b : Int, 0 ≤ b → b < (rawImg : Int) →
      ∃ iX iY k : Int, 0 ≤ iX ∧ iX < 800 ∧ 0 ≤ iY ∧ iY < 800 ∧ 0 ≤ k ∧ k < 3 ∧
        b = pixelOffset iX iY + k) := by
  refine ⟨rawImg_eq, ?_, ?_, ?_, ?_, ?_⟩
  · rw [rawImg_eq]
    decide
  · intro iX iY h0 h1 h2 h3
    rw [rawImg_eq, pixelOffset_eq]
    unfold iXmax
    omega
  · intro iX iY jX jY h0 h1 h2 h3 h4 h5 h6 h7 he
    rw [pixelOffset_eq, pixelOffset_eq] at he
    omega
  · intro iX iY jX jY k l h0 h1 h2 h3 h4 h5 h6 h7 h8 h9 h10 h11 hne he
    rw [pixelOffset_eq, pixelOffset_eq] at he
    apply hne
    have : iX = jX ∧ iY = jY := by omega
    rw [this.1, this.2]
  · intro b h0 h1
    rw [rawImg_eq] at h1
    refine ⟨(b % 2400) / 3, b / 2400, b % 3, ?_, ?_, ?_, ?_, ?_, ?_, ?_⟩
    all_goals first
      | (rw [pixelOffset_eq]; omega)
      | omega

/-! ## Counted loops -/

theorem forUpTo_unfold {σ : Type} (bound : Int) (body : Int → σ → σ) (i : Int) (s : σ) :
    forUpTo bound body i s =
      if i < bound then forUpTo bound body (i + 1) (body i s) else s := by
  rw [forUpTo]

/-- Invariant rule for a counted loop. -/
theorem forUpTo_invariant {σ : Type} (bound : Int) (body : Int → σ → σ)
    (P : Int → σ → Prop)
    (hstep : ∀ (i : Int) (s : σ), i < bound → P i s → P (i + 1) (body i s))
    (i : Int) (s : σ) (hi : i ≤ bound) (h0 : P i s) :
    P bound (forUpTo bound body i s) := by
  generalize hn : (bound - i).toNat = n
  induction n generalizing i s with
  | zero =>
    have : i = bound := by omega
    subst this
    rw [forUpTo_unfold, if_neg (lt_irrefl _)]
    exact h0
  | succ k ih =>
    have hlt : i < bound := by omega
    rw [forUpTo_unfold, if_pos hlt]
    exact ih (i + 1) (body i s) (by omega) (hstep i s hlt h0) (by omega)

/-! ## The rasterization pass -/

theorem pixelCount_range (x y : Int) : 0 ≤ pixelCount x y ∧ pixelCount x y ≤ 200 :=
  iterationCount_range (colCx x) (rowCy y)

theorem visited_step (iY iX x y : Int) (h : Visited iY (iX + 1) x y) :
    Visited iY iX x y ∨ (x = iX ∧ y = iY) := by
  unfold Visited at *
  omega

theorem visited_mono (iY iX x y : Int) (h : Visited iY iX x y) : Visited iY (iX + 1) x y := by
  unfold Visited at *
  omega

theorem visited_here (iY iX : Int) (h0 : 0 ≤ iX) (h1 : iX < iXmax) (h2 : 0 ≤ iY) :
    Visited iY (iX + 1) iX iY := by
  unfold Visited
  omega

theorem visited_next_row (iY x y : Int) : Visited iY iXmax x y ↔ Visited (iY + 1) 0 x y := by
  unfold Visited
  constructor <;> intro h <;> omega

theorem store_same (m : Image) (a : Int) (v : Nat) : store m a v a = v := by
  simp [store]

theorem store_other (m : Image) (a : Int) (v : Nat) (i : Int) (h : i ≠ a) :
    store m a v i = m i := by
  simp [store, h]

theorem rasterPixel_inv (iY iX : Int) (st : Raster) (hY : 0 ≤ iY) (hX0 : 0 ≤ iX)
    (hX1 : iX < iXmax) (h : RasterInv iY iX st) :
    RasterInv iY (iX + 1) (rasterPixel iY (rowCy iY) iX st) := by
  obtain ⟨hall, hmin, hmax⟩ := h
  have hcnt : (escapeLoop (colCx iX) (rowCy iY) orbitInit).Iteration = pixelCount iX iY := rfl
  have hr := pixelCount_range iX iY
  refine ⟨?_, ?_, ?_⟩
  · intro x y hv
    simp only [rasterPixel, hcnt]
    rcases visited_step iY iX x y hv with hold | ⟨rfl, rfl⟩
    · obtain ⟨a, b, c, d⟩ := hall x y hold
      have hx := hold.1
      have hx1 := hold.2.1
      have e1 : pixelOffset x y ≠ pixelOffset iX iY + 2 ∧ pixelOffset x y ≠ pixelOffset iX iY + 1
          ∧ pixelOffset x y ≠ pixelOffset iX iY ∧ pixelOffset x y + 1 ≠ pixelOffset iX iY + 2
          ∧ pixelOffset x y + 1 ≠ pixelOffset iX iY + 1
          ∧ pixelOffset x y + 1 ≠ pixelOffset iX iY := by
        have hne : ¬ (x = iX ∧ y = iY) := by
          unfold Visited at hold
          omega
        rw [pixelOffset_eq, pixelOffset_eq]
        unfold iXmax at hx1 hX1
        omega
      obtain ⟨n1, n2, n3, n4, n5, n6⟩ := e1
      rw [store_other _ _ _ _ n1, store_other _ _ _ _ n2, store_other _ _ _ _ n3,
        store_other _ _ _ _ n4, store_other _ _ _ _ n5, store_other _ _ _ _ n6]
      refine ⟨?_, ?_, c, d⟩
      · split_ifs <;> omega
      · split_ifs <;> omega
    · refine ⟨?_, ?_, ?_, ?_⟩
      · split_ifs <;> omega
      · split_ifs <;> omega
      · rw [store_other _ _ _ _ (by omega), store_other _ _ _ _ (by omega), store_same]
      · rw [store_other _ _ _ _ (by omega), store_same]
  · simp only [rasterPixel, hcnt]
    by_cases hlt : pixelCount iX iY < st.MinIter
    · right
      exact ⟨iX, iY, visited_here iY iX hX0 hX1 hY, by rw [if_pos hlt]⟩
    · rw [if_neg hlt]
      rcases hmin with h9 | ⟨x, y, hv, e⟩
      · left
        exact h9
      · right
        exact ⟨x, y, visited_mono iY iX x y hv, e⟩
  · simp only [rasterPixel, hcnt]
    by_cases hgt : pixelCount iX iY > st.MaxIter
    · right
      exact ⟨iX, iY, visited_here iY iX hX0 hX1 hY, by rw [if_pos hgt]⟩
    · rw [if_neg hgt]
      rcases hmax with h9 | ⟨x, y, hv, e⟩
      · left
        exact h9
      · right
        exact ⟨x, y, visited_mono iY iX x y hv, e⟩

theorem rasterInv_next_row (iY : Int) (st : Raster) (h : RasterInv iY iXmax st) :
    RasterInv (iY + 1) 0 st := by
  obtain ⟨hall, hmin, hmax⟩ := h
  refine ⟨fun x y hv => hall x y ((visited_next_row iY x y).2 hv), ?_, ?_⟩
  · rcases hmin with h9 | ⟨x, y, hv, e⟩
    · exact Or.inl h9
    · exact Or.inr ⟨x, y, (visited_next_row iY x y).1 hv, e⟩
  · rcases hmax with h9 | ⟨x, y, hv, e⟩
    · exact Or.inl h9
    · exact Or.inr ⟨x, y, (visited_next_row iY x y).1 hv, e⟩

theorem rasterRow_inv (iY : Int) (st : Raster) (hY : 0 ≤ iY) (h : RasterInv iY 0 st) :
    RasterInv (iY + 1) 0 (rasterRow iY st) := by
  apply rasterInv_next_row
  unfold rasterRow
  have key := forUpTo_invariant iXmax (rasterPixel iY (rowCy iY))
    (fun iX s => 0 ≤ iX ∧ RasterInv iY iX s)
    (fun i s hlt hP => ⟨by omega, rasterPixel_inv iY i s hY hP.1 hlt hP.2⟩)
    0 st (by decide) ⟨le_rfl, h⟩
  exact key.2

theorem rasterPass_inv (pImage : Image) : RasterInv iYmax 0 (rasterPass pImage) := by
  unfold rasterPass
  have key := forUpTo_invariant iYmax rasterRow
    (fun iY s => 0 ≤ iY ∧ RasterInv iY 0 s)
    (fun i s _ hP => ⟨by omega, rasterRow_inv i s hP.1 hP.2⟩)
    0 { pImage := pImage, MinIter := 9999, MaxIter := 0 } (by decide) ⟨le_rfl, ?_⟩
  · exact key.2
  · refine ⟨?_, Or.inl rfl, Or.inl rfl⟩
    intro x y hv
    unfold Visited at hv
    omega

theorem visited_all (x y : Int) :
    Visited iYmax 0 x y ↔ (0 ≤ x ∧ x < 800) ∧ (0 ≤ y ∧ y < 800) := by
  unfold Visited iXmax iYmax
  constructor <;> intro h <;> omega

/-- After the rasterization pass the frame statistics bound every count, are
attained, and every pixel holds its packed count. -/
theorem rasterPass_result (pImage : Image) :
    (∀ x y : Int, 0 ≤ x → x < 800 → 0 ≤ y → y < 800 →
      (rasterPass pImage).MinIter ≤ pixelCount x y ∧
      pixelCount x y ≤ (rasterPass pImage).MaxIter ∧
      (rasterPass pImage).pImage (pixelOffset x y) = countByte0 (pixelCount x y) ∧
      (rasterPass pImage).pImage (pixelOffset x y + 1) = countByte1 (pixelCount x y)) ∧
    (∃ x y : Int, (0 ≤ x ∧ x < 800) ∧ (0 ≤ y ∧ y < 800) ∧
      pixelCount x y = (rasterPass pImage).MinIter) ∧
    (∃ x y : Int, (0 ≤ x ∧ x < 800) ∧ (0 ≤ y ∧ y < 800) ∧
      pixelCount x y = (rasterPass pImage).MaxIter) := by
  obtain ⟨hall, hmin, hmax⟩ := rasterPass_inv pImage
  have h00 := hall 0 0 ((visited_all 0 0).2 (by decide))
  have hr := pixelCount_range 0 0
  refine ⟨fun x y h0 h1 h2 h3 => hall x y ((visited_all x y).2 ⟨⟨h0, h1⟩, ⟨h2, h3⟩⟩), ?_, ?_⟩
  · rcases hmin with h9 | ⟨x, y, hv, e⟩
    · omega
    · exact ⟨x, y, ((visited_all x y).1 hv).1, ((visited_all x y).1 hv).2, e⟩
  · rcases hmax with h9 | ⟨x, y, hv, e⟩
    · exact ⟨0, 0, by decide, by decide, by omega⟩
    · exact ⟨x, y, ((visited_all x y).1 hv).1, ((visited_all x y).1 hv).2, e⟩

/-! ## The palette pass -/

theorem hsv_to_rgb_defined (hue min max : Int) (h0 : min ≤ max)
    (h1 : max - min < 2147483648) : ∃ p : rgb_t, hsv_to_rgb hue min max = some p := by
  have hD : divisor min (guardMax min max) ≠ 0 := by
    rw [divisor_guard_eq min max h0 h1]
    exact (specMax_sub_pos min max h0).ne.symm
  exact ⟨_, hsv_to_rgb_of_divisor hue min max hD⟩

theorem store3_other (m : Image) (c : Int) (r g b : Nat) (a : Int)
    (h0 : a ≠ c) (h1 : a ≠ c + 1) (h2 : a ≠ c + 2) :
    store (store (store m c r) (c + 1) g) (c + 2) b a = m a := by
  rw [store_other _ _ _ _ h2, store_other _ _ _ _ h1, store_other _ _ _ _ h0]

theorem pixelOffset_apart (x y iX iY k l : Int) (hx0 : 0 ≤ x) (hx1 : x < 800)
    (hX0 : 0 ≤ iX) (hX1 : iX < 800) (hk0 : 0 ≤ k) (hk1 : k < 3) (hl0 : 0 ≤ l) (hl1 : l < 3)
    (hne : ¬ (x = iX ∧ y = iY)) : pixelOffset x y + k ≠ pixelOffset iX iY + l := by
  rw [pixelOffset_eq, pixelOffset_eq]
  omega

theorem palettePixel_inv (MinIter MaxIter iY iX : Int) (s : Option Image)
    (hdef : ∀ hue : Int, ∃ p : rgb_t, hsv_to_rgb hue MinIter MaxIter = some p)
    (hY0 : 0 ≤ iY) (hY1 : iY < 800) (hX0 : 0 ≤ iX) (hX1 : iX < 800)
    (h : PaletteInv MinIter MaxIter iY iX s) :
    PaletteInv MinIter MaxIter iY (iX + 1) (s.bind (palettePixel MinIter MaxIter iY iX)) := by
  obtain ⟨img, rfl, hall⟩ := h
  have hnot : ¬ Visited iY iX iX iY := by
    unfold Visited
    omega
  obtain ⟨b0, b1⟩ := (hall iX iY hX0 hX1 hY0 hY1).2 hnot
  have hr := pixelCount_range iX iY
  have hread : ((readIterations (img (pixelOffset iX iY)) (img (pixelOffset iX iY + 1)) : Nat) : Int)
      = pixelCount iX iY := by
    rw [b0, b1]
    exact readIterations_of_small _ hr.1 (by omega)
  obtain ⟨p, hp⟩ := hdef (pixelCount iX iY)
  have hres : (some img).bind (palettePixel MinIter MaxIter iY iX) =
      some (store (store (store img (pixelOffset iX iY) p.r) (pixelOffset iX iY + 1) p.g)
        (pixelOffset iX iY + 2) p.b) := by
    simp only [Option.some_bind, palettePixel, hread, hp]
  refine ⟨_, hres, ?_⟩
  intro x y hx0 hx1 hy0 hy1
  by_cases hxy : x = iX ∧ y = iY
  · obtain ⟨rfl, rfl⟩ := hxy
    constructor
    · intro _
      refine ⟨p, hp, ?_, ?_, ?_⟩
      · rw [store_other _ _ _ _ (by omega), store_other _ _ _ _ (by omega), store_same]
      · rw [store_other _ _ _ _ (by omega), store_same]
      · rw [store_same]
    · intro hn
      exact absurd (visited_here y x hx0 (by unfold iXmax; omega) hy0) hn
  · have ap := fun k l hk0 hk1 hl0 hl1 =>
      pixelOffset_apart x y iX iY k l hx0 hx1 hX0 hX1 hk0 hk1 hl0 hl1 hxy
    have f0 : ∀ k : Int, 0 ≤ k → k < 3 →
        store (store (store img (pixelOffset iX iY) p.r) (pixelOffset iX iY + 1) p.g)
          (pixelOffset iX iY + 2) p.b (pixelOffset x y + k) = img (pixelOffset x y + k) := by
      intro k hk0 hk1
      apply store3_other
      · have := ap k 0 hk0 hk1 (by omega) (by omega)
        omega
      · exact ap k 1 hk0 hk1 (by omega) (by omega)
      · exact ap k 2 hk0 hk1 (by omega) (by omega)
    have g0 := f0 0 (by omega) (by omega)
    have g1 := f0 1 (by omega) (by omega)
    have g2 := f0 2 (by omega) (by omega)
    rw [add_zero] at g0
    rw [g0, g1, g2]
    have hiff : Visited iY (iX + 1) x y ↔ Visited iY iX x y := by
      unfold Visited
      constructor <;> intro hv <;> omega
    rw [hiff]
    exact hall x y hx0 hx1 hy0 hy1

theorem paletteInv_next_row (MinIter MaxIter iY : Int) (s : Option Image)
    (h : PaletteInv MinIter MaxIter iY iXmax s) : PaletteInv MinIter MaxIter (iY + 1) 0 s := by
  obtain ⟨img, e, hall⟩ := h
  refine ⟨img, e, ?_⟩
  intro x y hx0 hx1 hy0 hy1
  rw [← visited_next_row]
  exact hall x y hx0 hx1 hy0 hy1

theorem paletteRow_inv (MinIter MaxIter iY : Int) (s : Option Image)
    (hdef : ∀ hue : Int, ∃ p : rgb_t, hsv_to_rgb hue MinIter MaxIter = some p)
    (hY0 : 0 ≤ iY) (hY1 : iY < 800) (h : PaletteInv MinIter MaxIter iY 0 s) :
    PaletteInv MinIter MaxIter (iY + 1) 0 (paletteRow MinIter MaxIter iY s) := by
  apply paletteInv_next_row
  unfold paletteRow
  have key := forUpTo_invariant iXmax
    (fun iX s => s.bind (palettePixel MinIter MaxIter iY iX))
    (fun iX s => 0 ≤ iX ∧ PaletteInv MinIter MaxIter iY iX s)
    (fun i s hlt hP =>
      ⟨by omega, palettePixel_inv MinIter MaxIter iY i s hdef hY0 hY1 hP.1 hlt hP.2⟩)
    0 s (by decide) ⟨le_rfl, h⟩
  exact key.2

theorem palettePass_inv (MinIter MaxIter : Int) (pImage : Image)
    (hdef : ∀ hue : Int, ∃ p : rgb_t, hsv_to_rgb hue MinIter MaxIter = some p)
    (hcounts : ∀ x y : Int, 0 ≤ x → x < 800 → 0 ≤ y → y < 800 →
      pImage (pixelOffset x y) = countByte0 (pixelCount x y) ∧
      pImage (pixelOffset x y + 1) = countByte1 (pixelCount x y)) :
    PaletteInv MinIter MaxIter iYmax 0 (palettePass MinIter MaxIter pImage) := by
  unfold palettePass
  have key := forUpTo_invariant iYmax (paletteRow MinIter MaxIter)
    (fun iY s => 0 ≤ iY ∧ PaletteInv MinIter MaxIter iY 0 s)
    (fun i s hlt hP => ⟨by omega, paletteRow_inv MinIter MaxIter i s hdef hP.1 hlt hP.2⟩)
    0 (some pImage) (by decide) ⟨le_rfl, ?_⟩
  · exact key.2
  · refine ⟨pImage, rfl, ?_⟩
    intro x y hx0 hx1 hy0 hy1
    constructor
    · intro hv
      unfold Visited at hv
      omega
    · intro _
      exact hcounts x y hx0 hx1 hy0 hy1

/-- Both passes: the rendered buffer exists, and every pixel holds the colour
`hsv_to_rgb` gives to its own iteration count under the frame statistics. -/
theorem renderImage_result (pImage : Image) :
    ∃ img : Image, renderImage pImage = some img ∧
      ∀ iX iY : Int, 0 ≤ iX → iX < 800 → 0 ≤ iY → iY < 800 →
        ∃ p : rgb_t,
          hsv_to_rgb (pixelCount iX iY) (rasterPass pImage).MinIter
            (rasterPass pImage).MaxIter = some p ∧
          img (pixelOffset iX iY) = p.r ∧ img (pixelOffset iX iY + 1) = p.g ∧
          img (pixelOffset iX iY + 2) = p.b := by
  obtain ⟨hall, ⟨x0, y0, _, _, emin⟩, ⟨x1, y1, _, _, emax⟩⟩ := rasterPass_result pImage
  have hmin := pixelCount_range x0 y0
  have hmax := pixelCount_range x1 y1
  have h00 := hall 0 0 (by decide) (by decide) (by decide) (by decide)
  have hdef : ∀ hue : Int, ∃ p : rgb_t,
      hsv_to_rgb hue (rasterPass pImage).MinIter (rasterPass pImage).MaxIter = some p :=
    fun hue => hsv_to_rgb_defined hue _ _ (by omega) (by omega)
  obtain ⟨img, e, himg⟩ := palettePass_inv (rasterPass pImage).MinIter
    (rasterPass pImage).MaxIter (rasterPass pImage).pImage hdef
    (fun x y a b c d => (hall x y a b c d).2.2)
  refine ⟨img, e, ?_⟩
  intro iX iY a b c d
  exact (himg iX iY a b c d).1 ((visited_all iX iY).2 ⟨⟨a, b⟩, ⟨c, d⟩⟩)

/-- C4: after the rasterization pass over the 800x800 grid (`MinIter` starting at 9999,
`MaxIter` at 0, every count in `[0, 200]`), `MinIter ≤ count ≤ MaxIter` for every pixel,
`MinIter` and `MaxIter` are each the count of some pixel, and `MinIter ≤ MaxIter`. -/
theorem rasterPass_frame_statistics (pImage : Image) :
    (∀ iX iY : Int, 0 ≤ iX → iX < 800 → 0 ≤ iY → iY < 800 →
      0 ≤ pixelCount iX iY ∧ pixelCount iX iY ≤ 200 ∧
      (rasterPass pImage).MinIter ≤ pixelCount iX iY ∧
      pixelCount iX iY ≤ (rasterPass pImage).MaxIter) ∧
    (∃ iX iY : Int, (0 ≤ iX ∧ iX < 800) ∧ (0 ≤ iY ∧ iY < 800) ∧
      pixelCount iX iY = (rasterPass pImage).MinIter) ∧
    (∃ iX iY : Int, (0 ≤ iX ∧ iX < 800) ∧ (0 ≤ iY ∧ iY < 800) ∧
      pixelCount iX iY = (rasterPass pImage).MaxIter) ∧
    (rasterPass pImage).MinIter ≤ (rasterPass pImage).MaxIter := by
  obtain ⟨hall, hmin, hmax⟩ := rasterPass_result pImage
  refine ⟨?_, hmin, hmax, ?_⟩
  · intro iX iY a b c d
    exact ⟨(pixelCount_range iX iY).1, (pixelCount_range iX iY).2,
      (hall iX iY a b c d).1, (hall iX iY a b c d).2.1⟩
  · have h00 := hall 0 0 (by decide) (by decide) (by decide) (by decide)
    omega

/-- C5: a count `n` with `0 ≤ n ≤ IterationMax` stored as the rasterizer does and read
back as the palette pass does is `n` again, and after both passes every pixel holds the
colour `hsv_to_rgb` gives to its own count. -/
theorem stored_count_roundtrip :
    (∀ n : Int, 0 ≤ n → n ≤ IterationMax →
      countByte0 n = n.toNat ∧ countByte1 n = 0 ∧
      ((readIterations (countByte0 n) (countByte1 n) : Nat) : Int) = n) ∧
    (∀ pImage : Image, ∃ img : Image, renderImage pImage = some img ∧
      ∀ iX iY : Int, 0 ≤ iX → iX < 800 → 0 ≤ iY → iY < 800 →
        ∃ p : rgb_t,
          hsv_to_rgb (pixelCount iX iY) (rasterPass pImage).MinIter
            (rasterPass pImage).MaxIter = some p ∧
          img (pixelOffset iX iY) = p.r ∧ img (pixelOffset iX iY + 1) = p.g ∧
          img (pixelOffset iX iY + 2) = p.b) := by
  refine ⟨?_, renderImage_result⟩
  intro n h0 h1
  have h2 : n < 256 := by
    unfold IterationMax at h1
    omega
  refine ⟨?_, countByte1_eq_zero n, readIterations_of_small n h0 h2⟩
  unfold countByte0
  exact u8_of_range n h0 h2

end MinizExample
